import Mathlib

/-!
Verification of the MedRec medication module (src/medication.py).

Strings are modelled as lists of characters. The configuration data that
medication.py imports from constants.py (UNDESIRABLE_PUNCTUATION,
physical_forms, known_number_of_doses, known_times_per_day, abbreviations,
MEDICATION_FIELDS) is not part of the repository sources, so every
definition is parameterised by a configuration record; the regular
expression engine of the re module is likewise a parameter.
-/

set_option maxHeartbeats 1000000

/-- Python str.isspace for the characters that occur in medication lines:
space, tab, newline, carriage return, vertical tab and form feed. -/
def pyIsSpace (c : Char) : Bool :=
  c = ' ' || c = '\t' || c = '\n' || c = '\r' || c = '\x0b' || c = '\x0c'

/-- Python str.upper on a single character, restricted to ASCII as in the
medication data: a lowercase letter is shifted down by 32, anything else is
unchanged. -/
def pyUpper (c : Char) : Char :=
  if c.toNat ≥ 97 ∧ c.toNat ≤ 122 then Char.ofNat (c.toNat - 32) else c

/-- Python str.lower on a single character (ASCII). -/
def pyLower (c : Char) : Char :=
  if c.toNat ≥ 65 ∧ c.toNat ≤ 90 then Char.ofNat (c.toNat + 32) else c

/-- Python str.strip(set): remove the characters satisfying p from both ends
of the list (str.strip() is stripBoth pyIsSpace, str.strip(chars) removes
the characters of chars). -/
def stripBoth (p : Char → Bool) (l : List Char) : List Char :=
  ((l.dropWhile p).reverse.dropWhile p).reverse

/-- Helper for pySplit: walks the characters accumulating the current word
(reversed) and emits it when whitespace or the end of the string is reached. -/
def pySplitAux : List Char → List Char → List (List Char)
  | [], acc => if acc = [] then [] else [acc.reverse]
  | c :: cs, acc =>
    if pyIsSpace c then
      if acc = [] then pySplitAux cs [] else acc.reverse :: pySplitAux cs []
    else
      pySplitAux cs (c :: acc)

/-- Python str.split() with no argument: the maximal runs of non-whitespace
characters, leading/trailing/repeated whitespace producing no empty words. -/
def pySplit (l : List Char) : List (List Char) :=
  pySplitAux l []

/-- Python " ".join(words): the words interleaved with single spaces. -/
def pyJoinSpace : List (List Char) → List Char
  | [] => []
  | [w] => w
  | w :: ws => w ++ ' ' :: pyJoinSpace ws

/-- Medication._normalize_field (src/medication.py lines 53-60): uppercase,
strip surrounding whitespace, strip each configured undesirable-punctuation
character set from both ends in configuration order (one pass over the
configured list, as the source loop does), then collapse internal whitespace
runs to single spaces via split + join. -/
def normalizeField (punctuation : List (List Char)) (field : List Char) : List Char :=
  let myField := stripBoth pyIsSpace (field.map pyUpper)
  let myField := punctuation.foldl (fun f punct => stripBoth (fun c => punct.contains c) f) myField
  pyJoinSpace (pySplit myField)

theorem toNat_ofNat_valid (n : Nat) (h : n.isValidChar) : (Char.ofNat n).toNat = n := by
  simp only [Char.ofNat, h, dif_pos, Char.ofNatAux]
  rfl

theorem pyUpper_not_lower (c : Char) : ¬((pyUpper c).toNat ≥ 97 ∧ (pyUpper c).toNat ≤ 122) := by
  by_cases h : c.toNat ≥ 97 ∧ c.toNat ≤ 122
  · have hv : (c.toNat - 32).isValidChar := Or.inl (by omega)
    rw [pyUpper, if_pos h, toNat_ofNat_valid _ hv]
    omega
  · rw [pyUpper, if_neg h]
    exact h

theorem pyUpper_idem (c : Char) : pyUpper (pyUpper c) = pyUpper c :=
  if_neg (pyUpper_not_lower c)

/-- Python substring containment, pat in s: some tail of s starts with pat. -/
def pyIn (pat s : List Char) : Bool :=
  s.tails.any (fun t => pat.isPrefixOf t)

/-- Fuel-driven worker for replaceAll; the fuel bounds the number of steps
and s.length steps always suffice, since every step consumes at least one
character of s. -/
def replaceAllFuel : Nat → List Char → List Char → List Char → List Char
  | 0, _, _, s => s
  | fuel + 1, pat, repl, s =>
    if pat ≠ [] ∧ pat.isPrefixOf s then
      repl ++ replaceAllFuel fuel pat repl (s.drop pat.length)
    else
      match s with
      | [] => []
      | c :: cs => c :: replaceAllFuel fuel pat repl cs

/-- Python str.replace(pat, repl): replace every non-overlapping occurrence
of pat, scanning left to right. -/
def replaceAll (s pat repl : List Char) : List Char :=
  replaceAllFuel s.length pat repl s

/-- Python str(x) for an optional string attribute: str(None) is "None". -/
def pyStrOpt : Option (List Char) → List Char
  | none => 'N' :: 'o' :: 'n' :: 'e' :: []
  | some s => s

/-- Python "%d" formatting of an integer. -/
def pyFormatInt : Int → List Char
  | Int.ofNat n => Nat.toDigits 10 n
  | Int.negSucc n => '-' :: Nat.toDigits 10 (n + 1)

/-- The character class of the dose capture group of the line grammar
(src/medication.py line 22): digits, decimal point or slash. -/
def isDoseChar (c : Char) : Bool :=
  c.isDigit || c = '.' || c = '/'

/-- The Python exceptions medication.py can raise: MappingContextError
(src/medication.py line 36), AttributeError (reading an attribute that was
never assigned), TypeError and KeyError. -/
inductive PyErr where
  | mappingContextError
  | attributeError
  | typeError
  | keyError
deriving DecidableEq, Repr

/-- The five captured groups of the medication_parser regular expression
(src/medication.py lines 21-27). -/
structure MedGroups where
  name : List Char
  dose : List Char
  units : List Char
  formulation : List Char
  instructions : List Char
deriving DecidableEq, Repr

/-- An ingredient as the Mapping Context returns it: carries a name
(mappings.rxnorm.formulas values, spec section 6). -/
structure Ingredient where
  name : List Char
deriving DecidableEq, Repr

/-- A relation edge of the Mapping Context, with the relation tag and the
CUIs of the two concepts (x.relation, x._concept1.CUI, x._concept2.CUI in
src/medication.py lines 257-260). -/
structure RxNormRelation where
  relation : List Char
  concept1CUI : List Char
  concept2CUI : List Char
deriving DecidableEq, Repr

/-- The external Mapping Context at its interface (spec section 6):
concept_names maps a lowercase drug name to the set of concept ids,
formulas maps a concept id to its ingredient list, relations is the edge
list. Python dicts become association lists; a Python set of CUIs becomes a
list whose head set.pop would remove. -/
structure MappingContext where
  conceptNames : List (List Char × List (List Char))
  formulas : List (List Char × List Ingredient)
  relations : List RxNormRelation
deriving DecidableEq, Repr

/-- The comparable fields of MEDICATION_FIELDS. Modelled from the spec:
constants.py is not under src/, and the spec fixes the configured list of
comparable fields as name, dose, units, formulation and instructions
(spec section 4.6). -/
inductive MedField where
  | name
  | dose
  | units
  | formulation
  | instructions
deriving DecidableEq, Repr

/-- The static configuration medication.py imports from constants.py,
plus the regular-expression engine. Modelled from the spec: constants.py is
not under src/ (spec section 6 lists the configuration inputs), so the
undesirable-punctuation sets, known physical forms, the two pattern-template
lists (pattern text paired with value, -1 meaning extract the matched
number), the abbreviation dictionary and the comparable-field labels are
parameters. findallInt interprets a built pattern over an instructions
string as re.findall followed by int() on a match (spec section 4.4 step 2:
"set quantity to the first match's integer value"); parserSem interprets
the medication_parser regular expression, returning the five captured
groups, or none when the grammar does not match — that grammar contains a
mandatory literal semicolon (src/medication.py line 25). -/
structure MedConfig where
  undesirablePunctuation : List (List Char)
  physicalForms : List (List Char)
  knownNumberOfDoses : List (List Char × Int)
  knownTimesPerDay : List (List Char × Int)
  abbreviations : List (List Char × List Char)
  medicationFields : List (MedField × List Char)
  findallInt : List Char → List Char → List Int
  parserSem : List Char → Option MedGroups

/-- The state of a ParsedMedication object (src/medication.py lines 83-104):
one Option field per instance attribute, none meaning the attribute holds
Python None. The parsed field is Option Bool with none meaning the _parsed
attribute has not been assigned yet — Medication.__init__ invokes the
overridden from_text before ParsedMedication.__init__ assigns _parsed, and
the unparsed branch of from_text reads self._parsed, so attribute presence
is observable there. The class-level regular-expression caches are
semantically transparent memoisation and are not part of the record state. -/
structure ParsedMedication where
  originalString : Option (List Char)
  normalizedString : Option (List Char)
  name : Option (List Char)
  dose : Option (List Char)
  units : Option (List Char)
  formulation : Option (List Char)
  instructions : Option (List Char)
  parsed : Option Bool
  genericFormula : Option (List (List Char))
  normDose : Option (List Char)
  cuis : Option (List (List Char))
  context : Option MappingContext
deriving DecidableEq, Repr

namespace ParsedMedication

/-- ParsedMedication.from_text (src/medication.py lines 105-120). The super
call Medication.from_text strips the line and derives the normalized string
with _normalize_field; then medication_parser is tried against the
normalized string. On a match the five groups are normalized and assigned
and _parsed becomes True. Otherwise the method logs a debug message whose
arguments evaluate self._parsed: when that attribute has not been assigned
yet (the call Medication.__init__ makes during construction) the read
raises AttributeError. -/
def from_text (cfg : MedConfig) (st : ParsedMedication) (medLine : List Char) :
    Except PyErr ParsedMedication :=
  let original := stripBoth pyIsSpace medLine
  let normalized := normalizeField cfg.undesirablePunctuation original
  let st := { st with originalString := some original, normalizedString := some normalized }
  match cfg.parserSem normalized with
  | some med =>
    Except.ok { st with
      name := some (normalizeField cfg.undesirablePunctuation med.name),
      dose := some (normalizeField cfg.undesirablePunctuation med.dose),
      units := some (normalizeField cfg.undesirablePunctuation med.units),
      formulation := some (normalizeField cfg.undesirablePunctuation med.formulation),
      instructions := some (normalizeField cfg.undesirablePunctuation med.instructions),
      parsed := some true }
  | none =>
    match st.parsed with
    | some _ => Except.ok st
    | none => Except.error PyErr.attributeError

/-- The construction of a ParsedMedication from a line of text
(src/medication.py lines 86-104 and 40-47). ParsedMedication.__init__ first
runs Medication.__init__, which calls the dynamically dispatched from_text
before any ParsedMedication attribute exists (parsed is still unassigned
there); afterwards __init__ resets the structured fields, sets _parsed to
False, stores the context and parses the line a second time. None-valued
attributes other than _parsed are never read during the first from_text
call, so their placeholder values are immaterial. -/
def pythonInit (cfg : MedConfig) (medLine : Option (List Char))
    (context : Option MappingContext) : Except PyErr ParsedMedication :=
  let st0 : ParsedMedication :=
    { originalString := none, normalizedString := none, name := none, dose := none,
      units := none, formulation := none, instructions := none, parsed := none,
      genericFormula := none, normDose := none, cuis := none, context := none }
  let afterSuper : Except PyErr ParsedMedication :=
    match medLine with
    | some line => from_text cfg st0 line
    | none => Except.ok st0
  match afterSuper with
  | Except.error e => Except.error e
  | Except.ok st1 =>
    let st2 := { st1 with
      name := none, dose := none, units := none, formulation := none,
      instructions := none, parsed := some false, genericFormula := none,
      normDose := none, cuis := none, context := context }
    match medLine with
    | some line => from_text cfg st2 line
    | none => Except.ok st2

/-- ParsedMedication._normalize_drug_name (src/medication.py lines 201-211):
truncate at the first @, strip, uppercase, then replace each
whitespace-separated token found in the abbreviation dictionary by its
expansion and join with single spaces. -/
def normalize_drug_name (abbreviations : List (List Char × List Char))
    (drugName : List Char) : List Char :=
  let truncated := (stripBoth pyIsSpace (drugName.takeWhile (fun c => c ≠ '@'))).map pyUpper
  let components := pySplit truncated
  pyJoinSpace (components.map (fun x =>
    match abbreviations.lookup x with
    | some expansion => expansion
    | none => x))

/-- ParsedMedication.CUIs (src/medication.py lines 239-250): default the
mappings argument to the stored context and fail with MappingContextError
when both are absent; on a cache miss look the lowercased name up in
concept_names and cache a copy of the resolved set; return a copy of the
cache (copies are value passing here, so the returned list is decoupled
from the cached one as copy.copy makes it in the source). -/
def CUIs (arg : Option MappingContext) (st : ParsedMedication) :
    Except PyErr (Option (List (List Char)) × ParsedMedication) :=
  match Option.or arg st.context with
  | none => Except.error PyErr.mappingContextError
  | some mappings =>
    let st :=
      if st.cuis = none then
        match st.name with
        | some n =>
          match mappings.conceptNames.lookup (n.map pyLower) with
          | some concepts => { st with cuis := some concepts }
          | none => st
        | none => st
      else st
    Except.ok (st.cuis, st)

/-- ParsedMedication.compute_generics (src/medication.py lines 218-238):
resolve concepts via CUIs; pop one concept from the returned copy and look
its ingredient list up, mapping _normalize_drug_name over the ingredient
names; on KeyError (an empty concept set popped, or a concept without a
formula) or when no concepts resolved, fall back to the single-element
formula built from the record's own name. The fallback reads self.name, so
a None name raises AttributeError inside _normalize_drug_name. -/
def compute_generics (cfg : MedConfig) (arg : Option MappingContext)
    (st : ParsedMedication) : Except PyErr ParsedMedication :=
  match Option.or arg st.context with
  | none => Except.error PyErr.mappingContextError
  | some mappings =>
    match CUIs (some mappings) st with
    | Except.error e => Except.error e
    | Except.ok (conceptsOpt, st) =>
      let fallback : Except PyErr ParsedMedication :=
        match st.name with
        | some n =>
          Except.ok { st with genericFormula := some [normalize_drug_name cfg.abbreviations n] }
        | none => Except.error PyErr.attributeError
      match conceptsOpt with
      | some concepts =>
        match concepts with
        | [] => fallback
        | concept :: _ =>
          match mappings.formulas.lookup concept with
          | some ingredients =>
            let formula := ingredients.map (fun x => normalize_drug_name cfg.abbreviations x.name)
            Except.ok { st with genericFormula := some formula }
          | none => fallback
      | none => fallback

/-- The generic_formula property (src/medication.py lines 182-188): on a
cache miss it requires a stored context — raising MappingContextError
otherwise — and fills the cache via compute_generics; it returns a copy of
the cached value. -/
def generic_formula_property (cfg : MedConfig) (st : ParsedMedication) :
    Except PyErr (Option (List (List Char)) × ParsedMedication) :=
  if st.genericFormula = none then
    if st.context = none then Except.error PyErr.mappingContextError
    else
      match compute_generics cfg none st with
      | Except.error e => Except.error e
      | Except.ok st => Except.ok (st.genericFormula, st)
  else Except.ok (st.genericFormula, st)

/-- ParsedMedication.tradenames (src/medication.py lines 251-261): default
the mappings argument to the stored context, resolve CUIs (which raises
MappingContextError when no context exists at all), return [] when nothing
resolved, and otherwise flatten, per resolved concept, the targets of the
tradename_of relation edges whose source is that concept. reduce over an
empty list of lists raises TypeError, as Python functools.reduce does with
no initial value. -/
def tradenames (arg : Option MappingContext) (st : ParsedMedication) :
    Except PyErr (List (List Char) × ParsedMedication) :=
  let mappings := Option.or arg st.context
  match CUIs mappings st with
  | Except.error e => Except.error e
  | Except.ok (myCuis, st) =>
    match myCuis, mappings with
    | none, _ => Except.ok ([], st)
    | some [], _ => Except.error PyErr.typeError
    | some cuisList, some mc =>
      Except.ok ((cuisList.map (fun y =>
        ((mc.relations.filter (fun x =>
          x.relation = ('t' :: 'r' :: 'a' :: 'd' :: 'e' :: 'n' :: 'a' :: 'm' :: 'e' :: '_' :: 'o' :: 'f' :: [])
          ∧ x.concept1CUI = y)).map (fun x => x.concept2CUI)))).flatten, st)
    | some _, none => Except.error PyErr.mappingContextError

end ParsedMedication

/-- build_regular_expressions (src/medication.py lines 76-81): substitute
the formulation for the %FORM% marker in every pattern of the template
list, keeping the paired value. -/
def buildRegularExpressions (listOfTuples : List (List Char × Int)) (formulation : List Char) :
    List (List Char × Int) :=
  listOfTuples.map (fun kv =>
    (replaceAll kv.1 ('%' :: 'F' :: 'O' :: 'R' :: 'M' :: '%' :: []) formulation, kv.2))

namespace ParsedMedication

/-- The formulation-canonicalization loop of normalize_dose
(src/medication.py lines 272-275): iterate over the configured physical
forms, and whenever the known form is a substring of the current value of
the local variable form, replace that local variable by the known form; the
loop does not break, and later membership tests run against the already
replaced value. -/
def canonicalizeFormulation (physicalForms : List (List Char)) (formulation : List Char) :
    List Char :=
  physicalForms.foldl
    (fun form knownFormulation => if pyIn knownFormulation form then knownFormulation else form)
    formulation

/-- One pattern evaluation loop of normalize_dose (src/medication.py lines
285-294 and 304-314): the patterns are visited in list order with no break;
a -1 pattern sets the accumulator to the first extracted integer when
findall returns matches, any other pattern sets the accumulator to its
fixed value when the pattern text is a substring of the instructions, and a
pattern that does not match leaves the accumulator as the previous
iterations left it. -/
def evalDosePatterns (findallInt : List Char → List Char → List Int)
    (regexps : List (List Char × Int)) (instructions : List Char) : Option Int :=
  regexps.foldl
    (fun acc kv =>
      if kv.2 = -1 then
        match findallInt kv.1 instructions with
        | [] => acc
        | v :: _ => some v
      else
        if pyIn kv.1 instructions then some kv.2 else acc)
    none

/-- The value a single pattern contributes when it matches the
instructions, and none when it does not: the first extracted integer for a
-1 pattern, the fixed value for a literal pattern that is a substring. -/
def patternValue (findallInt : List Char → List Char → List Int)
    (instructions : List Char) (kv : List Char × Int) : Option Int :=
  if kv.2 = -1 then (findallInt kv.1 instructions).head?
  else if pyIn kv.1 instructions then some kv.2 else none

/-- The composed normalized-dose string of normalize_dose
(src/medication.py lines 322-324): "<dose> <units>*<times_per_day>*<number_of_units>",
with str() of the dose (str(None) being "None") and %d of the two counts. -/
def normDoseString (dose units : Option (List Char)) (timesPerDay numberOfUnits : Int) :
    List Char :=
  pyStrOpt dose ++ ' ' :: (pyStrOpt units ++ '*' :: (pyFormatInt timesPerDay ++ '*' :: pyFormatInt numberOfUnits))

/-- ParsedMedication.normalize_dose (src/medication.py lines 262-328):
canonicalize the formulation for pattern lookup, build (through the
transparent class-level cache) the quantity and frequency pattern lists for
that form, evaluate both against the instructions with the last matching
pattern winning, default both counts to 1, and store the composed string in
_norm_dose. The %-formatting of the composed string cannot raise ValueError
(the dose is interpolated with %s and the two counts are ints), so the
except ValueError branch of the source is unreachable. A record whose
formulation or instructions is None raises TypeError at the first
membership test against it, before any state change. -/
def normalize_dose (cfg : MedConfig) (st : ParsedMedication) :
    Except PyErr ParsedMedication :=
  match st.formulation, st.instructions with
  | some formulationValue, some instructionsValue =>
    let form := canonicalizeFormulation cfg.physicalForms formulationValue
    let qRegexps := buildRegularExpressions cfg.knownNumberOfDoses form
    let numberOfUnits := (evalDosePatterns cfg.findallInt qRegexps instructionsValue).getD 1
    let tRegexps := buildRegularExpressions cfg.knownTimesPerDay form
    let timesPerDay := (evalDosePatterns cfg.findallInt tRegexps instructionsValue).getD 1
    Except.ok { st with normDose := some (normDoseString st.dose st.units timesPerDay numberOfUnits) }
  | _, _ => Except.error PyErr.typeError

/-- The value the comparable field holds on a record: the properties the
comparison reads return the stored, already normalized field values
(src/medication.py lines 146-175). -/
def getField : MedField → ParsedMedication → Option (List Char)
  | MedField.name, st => st.name
  | MedField.dose, st => st.dose
  | MedField.units, st => st.units
  | MedField.formulation, st => st.formulation
  | MedField.instructions, st => st.instructions

/-- ParsedMedication.fieldwise_comparison (src/medication.py lines
334-342): build the set of labels of the configured comparable fields whose
values are equal on the two records (the source converts that set to a list
of unspecified order on return; the set of elements is what is modelled). -/
def fieldwise_comparison (medicationFields : List (MedField × List Char))
    (a b : ParsedMedication) : Finset (List Char) :=
  medicationFields.foldl
    (fun result fieldLabel =>
      if getField fieldLabel.1 a = getField fieldLabel.1 b then insert fieldLabel.2 result
      else result)
    ∅

end ParsedMedication

/-- The canonicalization rule as the spec words it (spec section 4.4 step
1): of the known forms that are substrings of the stored formulation, the
last one in the configured list is used; the formulation is unchanged when
none matches. Stated for comparison with canonicalizeFormulation, which is
what the source computes. -/
def specLastMatchingForm (physicalForms : List (List Char)) (formulation : List Char) :
    List Char :=
  ((physicalForms.filter (fun kf => pyIn kf formulation)).getLast?).getD formulation

/-- A minimal configuration instance for evaluating the definitions on
concrete inputs (the configuration itself lives in constants.py, outside
src/). -/
def emptyConfig : MedConfig :=
  { undesirablePunctuation := [], physicalForms := [], knownNumberOfDoses := [],
    knownTimesPerDay := [], abbreviations := [], medicationFields := [],
    findallInt := fun _ _ => [], parserSem := fun _ => none }

/-- The state of a ParsedMedication() built with no line: every structured
attribute is None and _parsed is False (src/medication.py lines 92-102). -/
def emptyRecord : ParsedMedication :=
  { originalString := none, normalizedString := none, name := none, dose := none,
    units := none, formulation := none, instructions := none, parsed := some false,
    genericFormula := none, normDose := none, cuis := none, context := none }

theorem getLast?_cons_or {α : Type} (v : α) (l : List α) :
    (v :: l).getLast? = l.getLast?.or (some v) := by
  rw [List.getLast?_cons]
  cases h : l.getLast? with
  | none => rfl
  | some x => rfl

theorem evalDosePatterns_foldl_or (findallInt : List Char → List Char → List Int)
    (instructions : List Char) (regexps : List (List Char × Int)) (acc : Option Int) :
    List.foldl
      (fun acc kv =>
        if kv.2 = -1 then
          match findallInt kv.1 instructions with
          | [] => acc
          | v :: _ => some v
        else
          if pyIn kv.1 instructions then some kv.2 else acc)
      acc regexps
    = ((regexps.filterMap (ParsedMedication.patternValue findallInt instructions)).getLast?).or acc := by
  induction regexps generalizing acc with
  | nil => rfl
  | cons kv rest ih =>
    rw [List.foldl_cons, ih]
    by_cases h1 : kv.2 = -1
    · cases h2 : findallInt kv.1 instructions with
      | nil =>
        have hv : ParsedMedication.patternValue findallInt instructions kv = none := by
          rw [ParsedMedication.patternValue, if_pos h1, h2]
          rfl
        simp [hv, if_pos h1, h2]
      | cons v vs =>
        have hv : ParsedMedication.patternValue findallInt instructions kv = some v := by
          rw [ParsedMedication.patternValue, if_pos h1, h2]
          rfl
        simp [hv, if_pos h1, h2, getLast?_cons_or, Option.or_assoc]
    · by_cases h2 : pyIn kv.1 instructions
      · have hv : ParsedMedication.patternValue findallInt instructions kv = some kv.2 := by
          rw [ParsedMedication.patternValue, if_neg h1, if_pos h2]
        simp [hv, if_neg h1, if_pos h2, getLast?_cons_or, Option.or_assoc]
      · have hv : ParsedMedication.patternValue findallInt instructions kv = none := by
          rw [ParsedMedication.patternValue, if_neg h1, if_neg h2]
        simp [hv, if_neg h1, if_neg h2]

theorem evalDosePatterns_eq_lastMatch (findallInt : List Char → List Char → List Int)
    (instructions : List Char) (regexps : List (List Char × Int)) :
    ParsedMedication.evalDosePatterns findallInt regexps instructions
      = (regexps.filterMap (ParsedMedication.patternValue findallInt instructions)).getLast? := by
  rw [ParsedMedication.evalDosePatterns, evalDosePatterns_foldl_or, Option.or_none]

/-- C3: In normalize_dose's quantity and frequency inference the evaluation
does not short-circuit: over any ordered pattern list and instructions
string the loop's result is the value contributed by the last matching
pattern (none when no pattern matches); and when no quantity pattern and no
frequency pattern matches, both counts default to 1 and the cached dose is
the composed string "<dose> <units>*1*1". -/
theorem claim3_last_match_wins_and_default :
    (∀ (findallInt : List Char → List Char → List Int) (regexps : List (List Char × Int))
        (instructions : List Char),
      ParsedMedication.evalDosePatterns findallInt regexps instructions
        = (regexps.filterMap (ParsedMedication.patternValue findallInt instructions)).getLast?)
    ∧ (∀ (cfg : MedConfig) (st : ParsedMedication) (f i : List Char),
        st.formulation = some f → st.instructions = some i →
        (buildRegularExpressions cfg.knownNumberOfDoses
            (ParsedMedication.canonicalizeFormulation cfg.physicalForms f)).filterMap
            (ParsedMedication.patternValue cfg.findallInt i) = [] →
        (buildRegularExpressions cfg.knownTimesPerDay
            (ParsedMedication.canonicalizeFormulation cfg.physicalForms f)).filterMap
            (ParsedMedication.patternValue cfg.findallInt i) = [] →
        ParsedMedication.normalize_dose cfg st
          = Except.ok { st with
              normDose := some (ParsedMedication.normDoseString st.dose st.units 1 1) }) := by
  constructor
  · exact fun findallInt regexps instructions =>
      evalDosePatterns_eq_lastMatch findallInt instructions regexps
  · intro cfg st f i hf hi hq ht
    simp only [ParsedMedication.normalize_dose, hf, hi]
    rw [evalDosePatterns_eq_lastMatch, evalDosePatterns_eq_lastMatch, hq, ht]
    rfl

/-- Witness for C3 at a concrete input: with the minimal configuration no
pattern matches, and the composed dose follows the "<dose> <units>*1*1"
template exactly. -/
theorem claim3_witness :
    ParsedMedication.normalize_dose emptyConfig
        { emptyRecord with
            name := some "LISINOPRIL".toList, dose := some "10".toList,
            units := some "MG".toList, formulation := some "TABLET".toList,
            instructions := some "TAKE DAILY".toList, parsed := some true }
      = Except.ok { emptyRecord with
          name := some "LISINOPRIL".toList, dose := some "10".toList,
          units := some "MG".toList, formulation := some "TABLET".toList,
          instructions := some "TAKE DAILY".toList, parsed := some true,
          normDose := some "10 MG*1*1".toList } :=
  claim3_last_match_wins_and_default.2 emptyConfig
    { emptyRecord with
        name := some "LISINOPRIL".toList, dose := some "10".toList,
        units := some "MG".toList, formulation := some "TABLET".toList,
        instructions := some "TAKE DAILY".toList, parsed := some true }
    "TABLET".toList "TAKE DAILY".toList rfl rfl rfl rfl

/-- C9: normalize_dose changes no record state other than the cached
normalized dose: whenever it returns a record, that record equals the input
with only the normDose field replaced, so name, dose, units, formulation,
instructions, the original and the normalized text, the caches and the
context are untouched. -/
theorem claim9_normalize_dose_frame :
    ∀ (cfg : MedConfig) (st st' : ParsedMedication),
      ParsedMedication.normalize_dose cfg st = Except.ok st' →
      st' = { st with normDose := st'.normDose } := by
  intro cfg st st' h
  rw [ParsedMedication.normalize_dose] at h
  cases hf : st.formulation with
  | none => rw [hf] at h; cases hi : st.instructions <;> rw [hi] at h <;> cases h
  | some f =>
    cases hi : st.instructions with
    | none => rw [hf, hi] at h; cases h
    | some i =>
      rw [hf, hi] at h
      cases h
      rfl

/-- Witness for C9 at a concrete input. -/
theorem claim9_witness :
    ({ emptyRecord with
        dose := some "81".toList, units := some "MG".toList,
        formulation := some "TABLET".toList, instructions := some "DAILY".toList,
        normDose := some "81 MG*1*1".toList } : ParsedMedication)
      = { { emptyRecord with
              dose := some "81".toList, units := some "MG".toList,
              formulation := some "TABLET".toList, instructions := some "DAILY".toList } with
          normDose := ({ emptyRecord with
              dose := some "81".toList, units := some "MG".toList,
              formulation := some "TABLET".toList, instructions := some "DAILY".toList,
              normDose := some "81 MG*1*1".toList } : ParsedMedication).normDose } :=
  claim9_normalize_dose_frame emptyConfig
    { emptyRecord with
        dose := some "81".toList, units := some "MG".toList,
        formulation := some "TABLET".toList, instructions := some "DAILY".toList }
    { emptyRecord with
        dose := some "81".toList, units := some "MG".toList,
        formulation := some "TABLET".toList, instructions := some "DAILY".toList,
        normDose := some "81 MG*1*1".toList }
    rfl

/-- C1 (amended): for a record whose formulation and instructions are set,
normalize_dose never leaves the cached dose unset: the dose is interpolated
with %s string formatting, which succeeds for any dose value (numeric or
not), the two counts are always ints, and so the except ValueError branch
of the source never fires — the method returns normally with _norm_dose
assigned. -/
theorem claim1_always_sets_norm_dose :
    ∀ (cfg : MedConfig) (st : ParsedMedication) (f i : List Char),
      st.formulation = some f → st.instructions = some i →
      ∃ st', ParsedMedication.normalize_dose cfg st = Except.ok st'
        ∧ st'.normDose.isSome = true := by
  intro cfg st f i hf hi
  simp only [ParsedMedication.normalize_dose, hf, hi]
  exact ⟨_, rfl, rfl⟩

/-- C1 (counterexample): a parsed-style record whose dose "TEN" is not
numeric (it has no character of the dose class). normalize_dose does not
abort: it returns normally and sets the cached dose to "TEN MG*1*1", so the
cached normalized dose does not remain unset. -/
theorem claim1_counterexample :
    ({ emptyRecord with
        name := some "ASA".toList, dose := some "TEN".toList, units := some "MG".toList,
        formulation := some "TABLET".toList, instructions := some "DAILY".toList,
        parsed := some true } : ParsedMedication).dose = some "TEN".toList
    ∧ "TEN".toList.all isDoseChar = false
    ∧ ParsedMedication.normalize_dose emptyConfig
        { emptyRecord with
            name := some "ASA".toList, dose := some "TEN".toList, units := some "MG".toList,
            formulation := some "TABLET".toList, instructions := some "DAILY".toList,
            parsed := some true }
      = Except.ok { emptyRecord with
          name := some "ASA".toList, dose := some "TEN".toList, units := some "MG".toList,
          formulation := some "TABLET".toList, instructions := some "DAILY".toList,
          parsed := some true, normDose := some "TEN MG*1*1".toList }
    ∧ some "TEN MG*1*1".toList ≠ (none : Option (List Char)) :=
  ⟨rfl, by decide, rfl, by decide⟩

/-- Witness for C1 at a concrete input. -/
theorem claim1_witness :
    ∃ st', ParsedMedication.normalize_dose emptyConfig
        { emptyRecord with
            dose := some "1/2".toList, units := some "G".toList,
            formulation := some "PATCH".toList, instructions := some "WEEKLY".toList }
      = Except.ok st' ∧ st'.normDose.isSome = true :=
  claim1_always_sets_norm_dose emptyConfig
    { emptyRecord with
        dose := some "1/2".toList, units := some "G".toList,
        formulation := some "PATCH".toList, instructions := some "WEEKLY".toList }
    "PATCH".toList "WEEKLY".toList rfl rfl

/-- C2 (counterexample): with known forms AB then CD and stored formulation
"AB CD", both known forms are substrings of the stored formulation, yet the
loop selects AB — the first match — because after form is replaced by AB
the later test checks CD against AB, not against the stored formulation;
the last matching form in the configured list is CD. -/
theorem claim2_counterexample :
    ParsedMedication.canonicalizeFormulation ("AB".toList :: "CD".toList :: []) "AB CD".toList
      = "AB".toList
    ∧ specLastMatchingForm ("AB".toList :: "CD".toList :: []) "AB CD".toList = "CD".toList
    ∧ pyIn "AB".toList "AB CD".toList = true
    ∧ pyIn "CD".toList "AB CD".toList = true
    ∧ "AB".toList ≠ "CD".toList := by
  refine ⟨by decide, by decide, by decide, by decide, by decide⟩

/-- C2 (amended): the canonicalization loop indeed does not stop at the
first match — every known form in the configured list is tested — but each
test runs against the current value of the loop variable, which an earlier
match may already have replaced: the form appended last wins exactly when
it is a substring of the value the earlier forms produced; and a
formulation no known form matches is left unchanged. -/
theorem claim2_last_form_tested_against_current :
    (∀ (physicalForms : List (List Char)) (kf f : List Char),
      ParsedMedication.canonicalizeFormulation (physicalForms ++ [kf]) f
        = (if pyIn kf (ParsedMedication.canonicalizeFormulation physicalForms f) then kf
           else ParsedMedication.canonicalizeFormulation physicalForms f))
    ∧ (∀ (physicalForms : List (List Char)) (f : List Char),
        (∀ kf ∈ physicalForms, pyIn kf f = false) →
        ParsedMedication.canonicalizeFormulation physicalForms f = f) := by
  constructor
  · intro physicalForms kf f
    rw [ParsedMedication.canonicalizeFormulation, List.foldl_append]
    rfl
  · intro physicalForms f h
    induction physicalForms with
    | nil => rfl
    | cons kf rest ih =>
      rw [ParsedMedication.canonicalizeFormulation, List.foldl_cons,
        if_neg (by rw [h kf (List.mem_cons_self kf rest)]; exact Bool.false_ne_true)]
      exact ih (fun k hk => h k (List.mem_cons_of_mem kf hk))

/-- Witness for C2 at a concrete input: no known form matches, the stored
formulation is returned unchanged. -/
theorem claim2_witness :
    ParsedMedication.canonicalizeFormulation ("XY".toList :: []) "TABLET".toList
      = "TABLET".toList :=
  claim2_last_form_tested_against_current.2 ("XY".toList :: []) "TABLET".toList (by decide)

/-- C6: on a record with no stored Mapping Context and no context argument,
every operation requiring concept resolution fails with the distinct
MappingContextError and the error propagates: CUIs, compute_generics and
tradenames raise it directly, and the generic_formula property raises it
whenever its cache is empty (the state in which it must resolve concepts). -/
theorem claim6_missing_context_errors :
    ∀ (cfg : MedConfig) (st : ParsedMedication),
      st.context = none →
      ParsedMedication.CUIs none st = Except.error PyErr.mappingContextError
      ∧ ParsedMedication.compute_generics cfg none st = Except.error PyErr.mappingContextError
      ∧ ParsedMedication.tradenames none st = Except.error PyErr.mappingContextError
      ∧ (st.genericFormula = none →
          ParsedMedication.generic_formula_property cfg st
            = Except.error PyErr.mappingContextError) := by
  intro cfg st hc
  have h1 : ParsedMedication.CUIs none st = Except.error PyErr.mappingContextError := by
    simp [ParsedMedication.CUIs, hc, Option.or]
  refine ⟨h1, ?_, ?_, ?_⟩
  · simp [ParsedMedication.compute_generics, hc, Option.or]
  · simp [ParsedMedication.tradenames, hc, h1, Option.or]
  · intro hg
    simp [ParsedMedication.generic_formula_property, hg, hc]

/-- Witness for C6 at a concrete input: the empty record stores no context
and has an empty generic-formula cache. -/
theorem claim6_witness :
    ParsedMedication.CUIs none emptyRecord = Except.error PyErr.mappingContextError
    ∧ ParsedMedication.compute_generics emptyConfig none emptyRecord
        = Except.error PyErr.mappingContextError
    ∧ ParsedMedication.tradenames none emptyRecord = Except.error PyErr.mappingContextError
    ∧ (emptyRecord.genericFormula = none →
        ParsedMedication.generic_formula_property emptyConfig emptyRecord
          = Except.error PyErr.mappingContextError) :=
  claim6_missing_context_errors emptyConfig emptyRecord rfl

/-- C7: with a Mapping Context stored, a fresh concept cache and a name the
context's index does not know (or whose selected concept has no ingredient
list), compute_generics sets the generic formula to the single-element
sequence holding the record's own normalized name with abbreviations
expanded. -/
theorem claim7_generic_formula_fallback :
    ∀ (cfg : MedConfig) (mc : MappingContext) (st : ParsedMedication) (n : List Char),
      st.context = some mc → st.cuis = none → st.name = some n →
      (mc.conceptNames.lookup (n.map pyLower) = none
        ∨ ∃ c cs, mc.conceptNames.lookup (n.map pyLower) = some (c :: cs)
            ∧ mc.formulas.lookup c = none) →
      ∃ st', ParsedMedication.compute_generics cfg none st = Except.ok st'
        ∧ st'.genericFormula
            = some [ParsedMedication.normalize_drug_name cfg.abbreviations n] := by
  intro cfg mc st n hcontext hcuis hname hcase
  rcases hcase with hlook | ⟨c, cs, hlook, hform⟩
  · have hC : ParsedMedication.CUIs (some mc) st = Except.ok (none, st) := by
      simp [ParsedMedication.CUIs, hcuis, hname, hlook, Option.or]
    refine ⟨{ st with genericFormula := some [ParsedMedication.normalize_drug_name cfg.abbreviations n] }, ?_, rfl⟩
    simp [ParsedMedication.compute_generics, hcontext, hC, hname, Option.or]
  · have hC : ParsedMedication.CUIs (some mc) st
        = Except.ok (some (c :: cs), { st with cuis := some (c :: cs) }) := by
      simp [ParsedMedication.CUIs, hcuis, hname, hlook, Option.or]
    refine ⟨{ st with cuis := some (c :: cs), genericFormula := some [ParsedMedication.normalize_drug_name cfg.abbreviations n] }, ?_, rfl⟩
    simp [ParsedMedication.compute_generics, hcontext, hC, hname, hform, Option.or]

/-- The Mapping Context of the C7 witness: it knows no drug name at all. -/
def mcUnknown : MappingContext :=
  { conceptNames := [], formulas := [], relations := [] }

/-- The configuration of the C7 witness: its abbreviation dictionary
expands ASA. -/
def cfgAbbrev : MedConfig :=
  { emptyConfig with abbreviations := [("ASA".toList, "ACETYLSALICYLIC ACID".toList)] }

/-- The record of the C7 witness: name ASA, context present, caches empty. -/
def recAsa : ParsedMedication :=
  { emptyRecord with name := some "ASA".toList, context := some mcUnknown }

/-- Witness for C7 at a concrete input: the context knows no drug name, and
the fallback formula is the record's own abbreviation-expanded name. -/
theorem claim7_witness :
    ∃ st', ParsedMedication.compute_generics cfgAbbrev none recAsa = Except.ok st'
      ∧ st'.genericFormula
          = some [ParsedMedication.normalize_drug_name cfgAbbrev.abbreviations "ASA".toList] :=
  claim7_generic_formula_fallback cfgAbbrev mcUnknown recAsa "ASA".toList rfl rfl rfl (Or.inl rfl)

theorem cuis_of_cached (st : ParsedMedication) (mc : MappingContext) (cs : List (List Char))
    (hc : st.context = some mc) (hcu : st.cuis = some cs) :
    ParsedMedication.CUIs none st = Except.ok (some cs, st) := by
  simp [ParsedMedication.CUIs, Option.or, hc, hcu]

/-- C10: the concept-id cache is isolated. CUIs on a fresh record caches
the resolved set and returns its value; compute_generics, which pops one
element from the copy CUIs returns (value passing models the copy.copy
calls of the source), leaves the cached set intact: the record it returns
still caches the full originally resolved set, and a subsequent CUIs call
returns that full set again. -/
theorem claim10_cuis_cache_isolation :
    ∀ (cfg : MedConfig) (mc : MappingContext) (st : ParsedMedication) (n : List Char)
      (cs : List (List Char)),
      st.context = some mc → st.cuis = none → st.name = some n →
      mc.conceptNames.lookup (n.map pyLower) = some cs →
      ParsedMedication.CUIs none st = Except.ok (some cs, { st with cuis := some cs })
      ∧ ∃ st', ParsedMedication.compute_generics cfg none st = Except.ok st'
          ∧ st'.cuis = some cs
          ∧ ParsedMedication.CUIs none st' = Except.ok (some cs, st') := by
  intro cfg mc st n cs hcontext hcuis hname hlook
  have h1 : ParsedMedication.CUIs none st
      = Except.ok (some cs, { st with cuis := some cs }) := by
    simp [ParsedMedication.CUIs, Option.or, hcontext, hcuis, hname, hlook]
  have h1arg : ParsedMedication.CUIs (some mc) st
      = Except.ok (some cs, { st with cuis := some cs }) := by
    simp [ParsedMedication.CUIs, Option.or, hcuis, hname, hlook]
  refine ⟨h1, ?_⟩
  cases cs with
  | nil =>
    refine ⟨{ st with cuis := some [], genericFormula := some [ParsedMedication.normalize_drug_name cfg.abbreviations n] }, ?_, rfl, ?_⟩
    · simp [ParsedMedication.compute_generics, hcontext, h1arg, hname, Option.or]
    · exact cuis_of_cached _ mc [] hcontext rfl
  | cons c rest =>
    cases hform : mc.formulas.lookup c with
    | none =>
      refine ⟨{ st with cuis := some (c :: rest), genericFormula := some [ParsedMedication.normalize_drug_name cfg.abbreviations n] }, ?_, rfl, ?_⟩
      · simp [ParsedMedication.compute_generics, hcontext, h1arg, hname, hform, Option.or]
      · exact cuis_of_cached _ mc (c :: rest) hcontext rfl
    | some ingredients =>
      refine ⟨{ st with cuis := some (c :: rest), genericFormula := some (ingredients.map (fun x => ParsedMedication.normalize_drug_name cfg.abbreviations x.name)) }, ?_, rfl, ?_⟩
      · simp [ParsedMedication.compute_generics, hcontext, h1arg, hname, hform, Option.or]
      · exact cuis_of_cached _ mc (c :: rest) hcontext rfl

/-- The Mapping Context of the C10 witness: aspirin resolves to two
concepts, the first of which has an ingredient list. -/
def mcAspirin : MappingContext :=
  { conceptNames := [("aspirin".toList, ["C1".toList, "C2".toList])],
    formulas := [("C1".toList, [{ name := "aspirin".toList }])],
    relations := [] }

/-- The record of the C10 witness: name ASPIRIN, context present, fresh
caches. -/
def recAspirin : ParsedMedication :=
  { emptyRecord with name := some "ASPIRIN".toList, context := some mcAspirin }

/-- Witness for C10 at a concrete input: after compute_generics pops one of
the two resolved concepts, the cache still holds both and CUIs returns both. -/
theorem claim10_witness :
    ParsedMedication.CUIs none recAspirin
      = Except.ok (some ["C1".toList, "C2".toList], { recAspirin with cuis := some ["C1".toList, "C2".toList] })
    ∧ ∃ st', ParsedMedication.compute_generics emptyConfig none recAspirin = Except.ok st'
        ∧ st'.cuis = some ["C1".toList, "C2".toList]
        ∧ ParsedMedication.CUIs none st' = Except.ok (some ["C1".toList, "C2".toList], st') :=
  claim10_cuis_cache_isolation emptyConfig mcAspirin recAspirin "ASPIRIN".toList
    ["C1".toList, "C2".toList] rfl rfl rfl (by decide)

theorem fieldwise_foldl_union (a b : ParsedMedication) :
    ∀ (fields : List (MedField × List Char)) (acc : Finset (List Char)),
      List.foldl
        (fun result fieldLabel =>
          if ParsedMedication.getField fieldLabel.1 a = ParsedMedication.getField fieldLabel.1 b
          then insert fieldLabel.2 result else result)
        acc fields
      = acc ∪ ((fields.filter (fun p =>
          decide (ParsedMedication.getField p.1 a = ParsedMedication.getField p.1 b))).map
            Prod.snd).toFinset := by
  intro fields
  induction fields with
  | nil => intro acc; simp
  | cons p rest ih =>
    intro acc
    rw [List.foldl_cons]
    by_cases h : ParsedMedication.getField p.1 a = ParsedMedication.getField p.1 b
    · rw [if_pos h, ih, List.filter_cons_of_pos (by simpa using h), List.map_cons,
        List.toFinset_cons, Finset.union_insert, Finset.insert_union]
    · rw [if_neg h, ih, List.filter_cons_of_neg (by simpa using h)]

/-- C8: the field-wise comparison returns, for any two records, the set of
labels of the configured comparable fields whose stored (normalized) values
are equal, and it is reflexive: comparing a record with itself yields the
full configured label set. -/
theorem claim8_comparison_reflexive :
    (∀ (medicationFields : List (MedField × List Char)) (a b : ParsedMedication),
      ParsedMedication.fieldwise_comparison medicationFields a b
        = ((medicationFields.filter (fun p =>
            decide (ParsedMedication.getField p.1 a = ParsedMedication.getField p.1 b))).map
              Prod.snd).toFinset)
    ∧ (∀ (medicationFields : List (MedField × List Char)) (a : ParsedMedication),
        ParsedMedication.fieldwise_comparison medicationFields a a
          = (medicationFields.map Prod.snd).toFinset) := by
  have hmain : ∀ (medicationFields : List (MedField × List Char)) (a b : ParsedMedication),
      ParsedMedication.fieldwise_comparison medicationFields a b
        = ((medicationFields.filter (fun p =>
            decide (ParsedMedication.getField p.1 a = ParsedMedication.getField p.1 b))).map
              Prod.snd).toFinset := by
    intro medicationFields a b
    rw [ParsedMedication.fieldwise_comparison, fieldwise_foldl_union, Finset.empty_union]
  refine ⟨hmain, ?_⟩
  intro medicationFields a
  rw [hmain, List.filter_eq_self.mpr]
  intro p _
  simp

/-- C5: constructing a ParsedMedication from a line the grammar does not
match — in particular any line without the mandatory ';' separator — does
not produce an unparsed record: Medication.__init__ calls the overridden
from_text before ParsedMedication.__init__ has assigned _parsed, and the
unparsed branch evaluates self._parsed as a logging argument, so the
construction raises AttributeError instead of returning a record with
is_parsed false and the structured fields unset. -/
theorem claim5_construction_reads_unset_attribute :
    ∀ (cfg : MedConfig) (line : List Char),
      cfg.parserSem (normalizeField cfg.undesirablePunctuation (stripBoth pyIsSpace line)) = none →
      ParsedMedication.pythonInit cfg (some line) none = Except.error PyErr.attributeError := by
  intro cfg line h
  simp [ParsedMedication.pythonInit, ParsedMedication.from_text, h]

/-- Witness for C5 at the failing input: the line has no ';' separator, so
the grammar cannot match it (the pattern contains a literal semicolon), and
the construction raises AttributeError. -/
theorem claim5_witness :
    ParsedMedication.pythonInit emptyConfig (some "ASPIRIN 81 MG DAILY".toList) none
      = Except.error PyErr.attributeError :=
  claim5_construction_reads_unset_attribute emptyConfig "ASPIRIN 81 MG DAILY".toList rfl

theorem map_pyUpper_id_of_mem (l : List Char) (h : ∀ c ∈ l, pyUpper c = c) :
    l.map pyUpper = l := by
  induction l with
  | nil => rfl
  | cons c cs ih =>
    rw [List.map_cons, h c (List.mem_cons_self c cs),
      ih (fun d hd => h d (List.mem_cons_of_mem c hd))]

theorem mem_stripBoth {p : Char → Bool} {l : List Char} {c : Char}
    (h : c ∈ stripBoth p l) : c ∈ l := by
  rw [stripBoth, List.mem_reverse] at h
  have h2 := (List.dropWhile_sublist p).mem h
  rw [List.mem_reverse] at h2
  exact (List.dropWhile_sublist p).mem h2

theorem mem_foldl_strips (puncts : List (List Char)) :
    ∀ (m : List Char) (c : Char),
      c ∈ puncts.foldl (fun f punct => stripBoth (fun c => punct.contains c) f) m → c ∈ m := by
  induction puncts with
  | nil => intro m c h; exact h
  | cons p ps ih =>
    intro m c h
    rw [List.foldl_cons] at h
    exact mem_stripBoth (ih _ c h)

theorem stripBoth_eq_self (p : Char → Bool) (l : List Char)
    (hh : ∀ c, l.head? = some c → p c = false)
    (hl : ∀ c, l.getLast? = some c → p c = false) :
    stripBoth p l = l := by
  have h1 : l.dropWhile p = l := by
    cases l with
    | nil => rfl
    | cons a as =>
      rw [List.dropWhile_cons, if_neg]
      rw [hh a rfl]
      exact Bool.false_ne_true
  have h2 : l.reverse.dropWhile p = l.reverse := by
    cases hr : l.reverse with
    | nil => rfl
    | cons a as =>
      rw [List.dropWhile_cons, if_neg]
      have : l.getLast? = some a := by
        rw [← List.head?_reverse, hr]
        rfl
      rw [hl a this]
      exact Bool.false_ne_true
  rw [stripBoth, h1, h2, List.reverse_reverse]

theorem pySplitAux_good : ∀ (l acc : List Char), (∀ c ∈ acc, pyIsSpace c = false) →
    ∀ w ∈ pySplitAux l acc, w ≠ [] ∧ ∀ c ∈ w, pyIsSpace c = false := by
  intro l
  induction l with
  | nil =>
    intro acc hacc w hw
    rw [pySplitAux] at hw
    by_cases h : acc = []
    · rw [if_pos h] at hw
      cases hw
    · rw [if_neg h] at hw
      rcases List.mem_singleton.mp hw with rfl
      refine ⟨fun hr => h (List.reverse_eq_nil_iff.mp hr), ?_⟩
      intro c hc
      exact hacc c (List.mem_reverse.mp hc)
  | cons c cs ih =>
    intro acc hacc w hw
    rw [pySplitAux] at hw
    by_cases hsp : pyIsSpace c
    · rw [if_pos hsp] at hw
      by_cases h : acc = []
      · rw [if_pos h] at hw
        exact ih [] (by intro d hd; cases hd) w hw
      · rw [if_neg h] at hw
        rcases List.mem_cons.mp hw with rfl | hw2
        · refine ⟨fun hr => h (List.reverse_eq_nil_iff.mp hr), ?_⟩
          intro d hd
          exact hacc d (List.mem_reverse.mp hd)
        · exact ih [] (by intro d hd; cases hd) w hw2
    · rw [if_neg hsp] at hw
      refine ih (c :: acc) ?_ w hw
      intro d hd
      rcases List.mem_cons.mp hd with rfl | hd2
      · exact Bool.not_eq_true _ ▸ (Bool.eq_false_iff.mpr hsp)
      · exact hacc d hd2

theorem pySplitAux_mem : ∀ (l acc w : List Char), w ∈ pySplitAux l acc →
    ∀ c ∈ w, c ∈ l ∨ c ∈ acc := by
  intro l
  induction l with
  | nil =>
    intro acc w hw c hc
    rw [pySplitAux] at hw
    by_cases h : acc = []
    · rw [if_pos h] at hw
      cases hw
    · rw [if_neg h] at hw
      rcases List.mem_singleton.mp hw with rfl
      exact Or.inr (List.mem_reverse.mp hc)
  | cons a as ih =>
    intro acc w hw c hc
    rw [pySplitAux] at hw
    by_cases hsp : pyIsSpace a
    · rw [if_pos hsp] at hw
      by_cases h : acc = []
      · rw [if_pos h] at hw
        rcases ih [] w hw c hc with h1 | h1
        · exact Or.inl (List.mem_cons_of_mem a h1)
        · cases h1
      · rw [if_neg h] at hw
        rcases List.mem_cons.mp hw with rfl | hw2
        · exact Or.inr (List.mem_reverse.mp hc)
        · rcases ih [] w hw2 c hc with h1 | h1
          · exact Or.inl (List.mem_cons_of_mem a h1)
          · cases h1
    · rw [if_neg hsp] at hw
      rcases ih (a :: acc) w hw c hc with h1 | h1
      · exact Or.inl (List.mem_cons_of_mem a h1)
      · rcases List.mem_cons.mp h1 with rfl | h2
        · exact Or.inl (List.mem_cons_self c as)
        · exact Or.inr h2

theorem pyJoinSpace_cons_cons (w v : List Char) (ws : List (List Char)) :
    pyJoinSpace (w :: v :: ws) = w ++ ' ' :: pyJoinSpace (v :: ws) := by
  rfl

theorem mem_pyJoinSpace : ∀ (W : List (List Char)) (c : Char), c ∈ pyJoinSpace W →
    c = ' ' ∨ ∃ w ∈ W, c ∈ w := by
  intro W
  induction W with
  | nil => intro c hc; cases hc
  | cons w ws ih =>
    intro c hc
    cases ws with
    | nil =>
      exact Or.inr ⟨w, List.mem_singleton.mpr rfl, hc⟩
    | cons v ws2 =>
      rw [pyJoinSpace_cons_cons] at hc
      rcases List.mem_append.mp hc with h1 | h1
      · exact Or.inr ⟨w, List.mem_cons_self w _, h1⟩
      · rcases List.mem_cons.mp h1 with rfl | h2
        · exact Or.inl rfl
        · rcases ih c h2 with h3 | ⟨u, hu, hcu⟩
          · exact Or.inl h3
          · exact Or.inr ⟨u, List.mem_cons_of_mem w hu, hcu⟩

theorem pyJoinSpace_ne_nil : ∀ (W : List (List Char)), W ≠ [] → (∀ w ∈ W, w ≠ []) →
    pyJoinSpace W ≠ [] := by
  intro W hW hgood
  cases W with
  | nil => exact absurd rfl hW
  | cons w ws =>
    cases ws with
    | nil => exact hgood w (List.mem_singleton.mpr rfl)
    | cons v ws2 =>
      rw [pyJoinSpace_cons_cons]
      intro h
      rcases List.append_eq_nil.mp h with ⟨_, h2⟩
      cases h2

theorem mem_of_head?_eq {l : List Char} {c : Char} (h : l.head? = some c) : c ∈ l :=
  List.mem_of_mem_head? (Option.mem_def.mpr h)

theorem mem_of_getLast?_eq {l : List Char} {c : Char} (h : l.getLast? = some c) : c ∈ l := by
  rw [← List.head?_reverse] at h
  exact List.mem_reverse.mp (List.mem_of_mem_head? (Option.mem_def.mpr h))

theorem pyJoinSpace_head_mem : ∀ (W : List (List Char)) (c : Char), (∀ w ∈ W, w ≠ []) →
    (pyJoinSpace W).head? = some c → ∃ w ∈ W, c ∈ w := by
  intro W c hgood hh
  cases W with
  | nil => cases hh
  | cons w ws =>
    have hw : w ≠ [] := hgood w (List.mem_cons_self w ws)
    cases ws with
    | nil =>
      exact ⟨w, List.mem_singleton.mpr rfl, mem_of_head?_eq hh⟩
    | cons v ws2 =>
      rw [pyJoinSpace_cons_cons, List.head?_append] at hh
      cases hwc : w.head? with
      | none => exact absurd (List.head?_eq_none_iff.mp hwc) hw
      | some d =>
        rw [hwc] at hh
        cases hh
        exact ⟨w, List.mem_cons_self w _, mem_of_head?_eq hwc⟩

theorem pyJoinSpace_getLast_mem : ∀ (W : List (List Char)) (c : Char), (∀ w ∈ W, w ≠ []) →
    (pyJoinSpace W).getLast? = some c → ∃ w ∈ W, c ∈ w := by
  intro W
  induction W with
  | nil => intro c _ h; cases h
  | cons w ws ih =>
    intro c hgood hl
    cases ws with
    | nil =>
      exact ⟨w, List.mem_singleton.mpr rfl, mem_of_getLast?_eq hl⟩
    | cons v ws2 =>
      have hgood2 : ∀ u ∈ v :: ws2, u ≠ [] := fun u hu => hgood u (List.mem_cons_of_mem w hu)
      have hJ : pyJoinSpace (v :: ws2) ≠ [] :=
        pyJoinSpace_ne_nil (v :: ws2) (List.cons_ne_nil v ws2) hgood2
      rw [pyJoinSpace_cons_cons, List.getLast?_append, getLast?_cons_or] at hl
      cases hd : (pyJoinSpace (v :: ws2)).getLast? with
      | none => exact absurd (List.getLast?_eq_none_iff.mp hd) hJ
      | some d =>
        rw [hd] at hl
        cases hl
        rcases ih c hgood2 hd with ⟨u, hu, hcu⟩
        exact ⟨u, List.mem_cons_of_mem w hu, hcu⟩

theorem pySplitAux_append : ∀ (w : List Char), (∀ c ∈ w, pyIsSpace c = false) →
    ∀ (l acc : List Char), pySplitAux (w ++ l) acc = pySplitAux l (w.reverse ++ acc) := by
  intro w
  induction w with
  | nil => intro _ l acc; rw [List.nil_append, List.reverse_nil, List.nil_append]
  | cons c cs ih =>
    intro hw l acc
    rw [List.cons_append, pySplitAux, if_neg]
    · rw [ih (fun d hd => hw d (List.mem_cons_of_mem c hd)) l (c :: acc),
        List.reverse_cons, List.append_assoc, List.singleton_append]
    · rw [hw c (List.mem_cons_self c cs)]
      exact Bool.false_ne_true

theorem pySplit_pyJoinSpace : ∀ (W : List (List Char)),
    (∀ w ∈ W, w ≠ [] ∧ ∀ c ∈ w, pyIsSpace c = false) →
    pySplit (pyJoinSpace W) = W := by
  intro W
  induction W with
  | nil => intro _; rfl
  | cons w ws ih =>
    intro hgood
    have hw := hgood w (List.mem_cons_self w ws)
    cases ws with
    | nil =>
      show pySplitAux w [] = [w]
      have : pySplitAux (w ++ []) [] = pySplitAux [] (w.reverse ++ []) :=
        pySplitAux_append w hw.2 [] []
      rw [List.append_nil] at this
      rw [this, List.append_nil, pySplitAux, if_neg (by
        intro h
        exact hw.1 (List.reverse_eq_nil_iff.mp h)), List.reverse_reverse]
    | cons v ws2 =>
      have hgood2 : ∀ u ∈ v :: ws2, u ≠ [] ∧ ∀ c ∈ u, pyIsSpace c = false :=
        fun u hu => hgood u (List.mem_cons_of_mem w hu)
      rw [pyJoinSpace_cons_cons, pySplit, pySplitAux_append w hw.2, List.append_nil,
        pySplitAux, if_pos (by rfl), if_neg (by
          intro h
          exact hw.1 (List.reverse_eq_nil_iff.mp h)), List.reverse_reverse]
      rw [← pySplit, ih hgood2]

/-- The two ends of a string are clear of every configured punctuation
character: under this condition the punctuation-stripping pass of the
normalizer leaves the string unchanged. -/
def endsClear (punctuation : List (List Char)) (l : List Char) : Bool :=
  punctuation.all (fun punct =>
    (l.head?.all (fun c => !punct.contains c)) && (l.getLast?.all (fun c => !punct.contains c)))

theorem foldl_strips_eq_self : ∀ (puncts : List (List Char)) (t : List Char),
    endsClear puncts t = true →
    puncts.foldl (fun f punct => stripBoth (fun c => punct.contains c) f) t = t := by
  intro puncts
  induction puncts with
  | nil => intro t _; rfl
  | cons p ps ih =>
    intro t hclear
    rw [endsClear, List.all_cons, Bool.and_eq_true] at hclear
    rcases hclear with ⟨hp, hps⟩
    rw [Bool.and_eq_true] at hp
    have hstrip : stripBoth (fun c => p.contains c) t = t := by
      refine stripBoth_eq_self _ t ?_ ?_
      · intro c hc
        have := hp.1
        rw [hc] at this
        rw [Option.all_some] at this
        rw [← Bool.not_eq_true]
        intro hcontr
        rw [hcontr] at this
        cases this
      · intro c hc
        have := hp.2
        rw [hc] at this
        rw [Option.all_some] at this
        rw [← Bool.not_eq_true]
        intro hcontr
        rw [hcontr] at this
        cases this
    rw [List.foldl_cons, hstrip]
    exact ih t hps

theorem normalizeField_fixed (punctuation : List (List Char)) (W : List (List Char))
    (hWgood : ∀ w ∈ W, w ≠ [] ∧ ∀ c ∈ w, pyIsSpace c = false)
    (hupperchars : ∀ c ∈ pyJoinSpace W, pyUpper c = c)
    (hclear : endsClear punctuation (pyJoinSpace W) = true) :
    normalizeField punctuation (pyJoinSpace W) = pyJoinSpace W := by
  have hupper : (pyJoinSpace W).map pyUpper = pyJoinSpace W :=
    map_pyUpper_id_of_mem _ hupperchars
  have hne : ∀ w ∈ W, w ≠ [] := fun w hw => (hWgood w hw).1
  have hws : stripBoth pyIsSpace (pyJoinSpace W) = pyJoinSpace W := by
    refine stripBoth_eq_self _ _ ?_ ?_
    · intro c hc
      rcases pyJoinSpace_head_mem W c hne hc with ⟨w, hw, hcw⟩
      exact (hWgood w hw).2 c hcw
    · intro c hc
      rcases pyJoinSpace_getLast_mem W c hne hc with ⟨w, hw, hcw⟩
      exact (hWgood w hw).2 c hcw
  have hstr := foldl_strips_eq_self punctuation (pyJoinSpace W) hclear
  have hsplit := pySplit_pyJoinSpace W hWgood
  show pyJoinSpace (pySplit (punctuation.foldl
      (fun f punct => stripBoth (fun c => punct.contains c) f)
      (stripBoth pyIsSpace ((pyJoinSpace W).map pyUpper)))) = pyJoinSpace W
  rw [hupper, hws, hstr, hsplit]

/-- C4 (amended): the field normalizer is idempotent on every string whose
normalized form has no configured punctuation character at either end
(in particular on every string when the configured punctuation set is
empty): normalize(normalize(s)) = normalize(s) whenever
endsClear(normalize(s)). The single punctuation pass of the source can
expose punctuation at the ends after whitespace collapse, which a second
application then strips, so the unconditional equation does not hold. -/
theorem claim4_idempotent_on_clear_ends :
    ∀ (punctuation : List (List Char)) (s : List Char),
      endsClear punctuation (normalizeField punctuation s) = true →
      normalizeField punctuation (normalizeField punctuation s)
        = normalizeField punctuation s := by
  intro punctuation s hclear
  have hWgood : ∀ w ∈ pySplit (punctuation.foldl
      (fun f punct => stripBoth (fun c => punct.contains c) f)
      (stripBoth pyIsSpace (s.map pyUpper))), w ≠ [] ∧ ∀ c ∈ w, pyIsSpace c = false :=
    pySplitAux_good _ [] (by intro d hd; cases hd)
  have hupperchars : ∀ c ∈ normalizeField punctuation s, pyUpper c = c := by
    intro c hc
    rcases mem_pyJoinSpace _ c hc with rfl | ⟨w, hw, hcw⟩
    · rfl
    · rcases pySplitAux_mem _ [] w hw c hcw with hm | hm
      · have hm0 := mem_stripBoth (mem_foldl_strips _ _ _ hm)
        rcases List.mem_map.mp hm0 with ⟨d, _, rfl⟩
        exact pyUpper_idem d
      · cases hm
  exact normalizeField_fixed punctuation _ hWgood hupperchars hclear

/-- C4 (counterexample): with the punctuation configuration containing the
semicolon, normalizing "x ; ;" yields "X ;" — the whitespace collapse
exposes a semicolon at the end which the single stripping pass had no
chance to remove — and a second application yields "X": the normalizer is
not idempotent on all strings. -/
theorem claim4_counterexample :
    normalizeField [[';']] "x ; ;".toList = "X ;".toList
    ∧ normalizeField [[';']] (normalizeField [[';']] "x ; ;".toList) = "X".toList
    ∧ normalizeField [[';']] (normalizeField [[';']] "x ; ;".toList)
        ≠ normalizeField [[';']] "x ; ;".toList := by
  refine ⟨by decide, by decide, by decide⟩

/-- Witness for C4 at a concrete input with a clear-ended normal form. -/
theorem claim4_witness :
    normalizeField [[';']] (normalizeField [[';']] "ab;  c".toList)
      = normalizeField [[';']] "ab;  c".toList :=
  claim4_idempotent_on_clear_ends [[';']] "ab;  c".toList (by decide)
